import Mathlib

/-!
Verification of the authenticated-decryption and record-validation pipeline
of the Full-stack-test-Back repository (src/services/encryptionService.ts,
src/controllers/dataController.ts, src/middleware/validation.ts).

The TypeScript source is shallowly embedded: buffers become `List Nat` of
bytes, strings stay `String`, fallible operations return `Except String`
(the error carrying the thrown message), and the Node `crypto` / `JSON`
library primitives that live outside this repository (the AES-256-GCM
keystream, the GHASH tag function, HMAC-SHA-256, and `JSON.parse`) are
taken as explicit function parameters of the model: every definition is
parametric in them, and concrete witnesses instantiate them with simple
executable functions.
-/

namespace FullStackBack

/-- Bytes are naturals; all byte values produced by the model stay below 256
when the parameters do. -/
abbrev Byte := Nat

/-- Value of one hex digit, `none` for a non-hex character.
Models the per-character decoding of `Buffer.from(s, 'hex')`. -/
def hexDigitVal (c : Char) : Option Nat :=
  if '0' ≤ c ∧ c ≤ '9' then some (c.toNat - '0'.toNat)
  else if 'a' ≤ c ∧ c ≤ 'f' then some (c.toNat - 'a'.toNat + 10)
  else if 'A' ≤ c ∧ c ≤ 'F' then some (c.toNat - 'A'.toNat + 10)
  else none

/-- `Buffer.from(s, 'hex')`: consume the characters two at a time; stop at the
first character that is not a hex digit, and drop a trailing lone digit. -/
def hexDecode : List Char → List Byte
  | c1 :: c2 :: rest =>
    match hexDigitVal c1, hexDigitVal c2 with
    | some hi, some lo => (16 * hi + lo) :: hexDecode rest
    | _, _ => []
  | _ => []

/-- Hex decoding of a Lean string (the wire encoding used by the endpoint). -/
def hexDecodeStr (s : String) : List Byte :=
  hexDecode s.toList

/-- Bytes of an ASCII string (`Buffer.from(s, 'utf8')` for ASCII content). -/
def asciiBytes (s : String) : List Byte :=
  s.toList.map Char.toNat

/-- `EncryptionService.threshold`: `1024 * 1024` bytes (1 MiB). -/
def threshold : Nat := 1024 * 1024

/-- The chunk size used by `sendDataInChunks` and the stream buffers:
`64 * 1024` bytes (64 KiB). -/
def chunkSize : Nat := 64 * 1024

/-- The OpenSSL message Node raises when `decipher.final()` fails tag
verification on an AES-256-GCM decipher. -/
def authFailMsg : String := "Unsupported state or unable to authenticate data"

/-- The generic message thrown by the `catch` block of `decryptHybrid`. -/
def genericDecryptFailMsg : String := "Falha na descriptografia dos dados"

/-- Authentication-tag lengths accepted by Node's `decipher.setAuthTag` for
GCM when no explicit `authTagLength` was configured. -/
def validTagLengths : List Nat := [4, 8, 12, 13, 14, 15, 16]

/-- `sendDataInChunks`: slice the data into consecutive `n`-byte chunks, in
input order (the final chunk may be shorter). -/
def chunksOf (n : Nat) (l : List Byte) : List (List Byte) :=
  if h : n = 0 ∨ l = [] then []
  else
    l.take n :: chunksOf n (l.drop n)
termination_by l.length
decreasing_by
  simp only [not_or] at h
  simp only [List.length_drop]
  have hn : 0 < n := Nat.pos_of_ne_zero h.1
  have hl : 0 < l.length := List.length_pos.mpr h.2
  omega

/-- One `decipher.update(chunk)` call of an AES-256-GCM decipher whose CTR
keystream byte at stream position `p` is `ksb p`: each ciphertext byte is
XORed with the keystream byte at its position.  `offset` is the number of
ciphertext bytes already fed to the decipher. -/
def gcmUpdate (ksb : Nat → Byte) (offset : Nat) : List Byte → List Byte
  | [] => []
  | b :: rest => (b ^^^ ksb offset) :: gcmUpdate ksb (offset + 1) rest

/-- The plaintext accumulated by feeding a list of chunks through
`decipher.update` in order (the transform stream of `decryptWithStreams`). -/
def streamUpdates (ksb : Nat → Byte) (offset : Nat) : List (List Byte) → List Byte
  | [] => []
  | c :: rest => gcmUpdate ksb offset c ++ streamUpdates ksb (offset + c.length) rest

section Cipher

-- AES-256-GCM CTR keystream: key and nonce determine the byte at each
-- stream position.  The AES core is Node-library code, outside this
-- repository, so it is a parameter of the model.
variable (ks : List Byte → List Byte → Nat → Byte)

-- GHASH-based expected authentication tag of a ciphertext under a key and
-- nonce, as computed by `decipher.final()`.  Also external library code,
-- hence a parameter.
variable (tagOf : List Byte → List Byte → List Byte → List Byte)

/-- `decryptWithBuffer`: one whole-buffer `decipher.update` followed by
`decipher.final`, which verifies the tag; on mismatch the computed plaintext
is discarded and the OpenSSL authentication error is thrown. -/
def decryptWithBuffer (key iv tag cs : List Byte) : Except String (List Byte) :=
  if tagOf key iv cs = tag then Except.ok (gcmUpdate (ks key iv) 0 cs)
  else Except.error authFailMsg

/-- `decryptWithStreams`: the ciphertext is pushed through the stream
pipeline in 64 KiB chunks in input order (`sendDataInChunks`), each chunk
going through `decipher.update`; `decipher.final` runs in the flush and
verifies the tag, rejecting the promise on mismatch, so no partial plaintext
is ever resolved to the caller. -/
def decryptWithStreams (key iv tag cs : List Byte) : Except String (List Byte) :=
  if tagOf key iv cs = tag then
    Except.ok (streamUpdates (ks key iv) 0 (chunksOf chunkSize cs))
  else Except.error authFailMsg

end Cipher

/-! ## Key derivation (`crypto.pbkdf2Sync(password, salt, 100000, 32, 'sha256')`) -/

/-- Byte-wise XOR of two equal-length byte strings (PBKDF2 accumulation). -/
def xorBytes (a b : List Byte) : List Byte :=
  List.zipWith (· ^^^ ·) a b

/-- Big-endian 32-bit block index, appended to the salt for the first PBKDF2
inner application. -/
def int32be (n : Nat) : List Byte :=
  [n / 16777216 % 256, n / 65536 % 256, n / 256 % 256, n % 256]

section Kdf

-- HMAC-SHA-256 keyed by the passphrase: Node/OpenSSL library code, outside
-- this repository, hence a parameter of the model (its output length is 32
-- for the real primitive).
variable (hmac : String → List Byte → List Byte)

/-- The remaining `n` PBKDF2 iterations after the first: `u` is the last
inner value, `acc` the XOR-accumulated block so far. -/
def pbkdf2Rounds (pw : String) (u acc : List Byte) : Nat → List Byte
  | 0 => acc
  | n + 1 =>
    let u2 := hmac pw u
    pbkdf2Rounds pw u2 (xorBytes acc u2) n

/-- PBKDF2 block `T_i`: `U_1 = PRF(pw, salt ∥ INT(i))`, `U_{j+1} = PRF(pw, U_j)`,
`T_i = U_1 ⊕ ⋯ ⊕ U_iters`. -/
def pbkdf2Block (pw : String) (salt : List Byte) (iters i : Nat) : List Byte :=
  let u1 := hmac pw (salt ++ int32be i)
  pbkdf2Rounds hmac pw u1 u1 (iters - 1)

/-- PBKDF2: the first `keyLen` bytes of `T_1 ∥ T_2 ∥ ⋯` (generating `keyLen`
blocks is always enough for a PRF with at least one output byte). -/
def pbkdf2 (pw : String) (salt : List Byte) (iters keyLen : Nat) : List Byte :=
  (((List.range keyLen).map (fun j => pbkdf2Block hmac pw salt iters (j + 1))).flatten).take keyLen

/-- The key derived by `decryptHybrid` (and `decrypt`): PBKDF2 over the fixed
demo passphrase and salt, 100000 iterations, 32 bytes. -/
def deriveKey : List Byte :=
  pbkdf2 hmac "default-password-for-demo" (asciiBytes "default-salt-for-demo") 100000 32

end Kdf

/-! ## The hybrid decryption entry point (`decryptHybrid`) -/

section Hybrid

variable (ks : List Byte → List Byte → Nat → Byte)
variable (tagOf : List Byte → List Byte → List Byte → List Byte)
variable (hmac : String → List Byte → List Byte)

/-- Body of `decryptHybrid` after key derivation.  The hex fields are decoded
to buffers; building the decipher fails inside the `try` for an empty IV
(`createDecipheriv`) or an invalid tag length (`setAuthTag`), and those
synchronous throws are caught and replaced by the generic message.  Below the
1 MiB threshold the buffered strategy runs synchronously inside the `try`, so
its failure is also caught and replaced by the generic message; at or above
the threshold the streamed strategy's promise is returned from inside the
`try` without `await`, so its rejection escapes the `catch` and the cipher's
own error message propagates unchanged to the caller. -/
def decryptHybridWithKey (key : List Byte) (encryptedData iv authTag : String) :
    Except String (List Byte) :=
  let ivB := hexDecodeStr iv
  let csB := hexDecodeStr encryptedData
  let tagB := hexDecodeStr authTag
  if ivB = [] then Except.error genericDecryptFailMsg
  else if tagB.length ∈ validTagLengths then
    if csB.length < threshold then
      match decryptWithBuffer ks tagOf key ivB tagB csB with
      | Except.ok r => Except.ok r
      | Except.error _ => Except.error genericDecryptFailMsg
    else
      decryptWithStreams ks tagOf key ivB tagB csB
  else Except.error genericDecryptFailMsg

/-- `EncryptionService.decryptHybrid`: derive the key, then dispatch on the
decoded ciphertext size. -/
def decryptHybrid (encryptedData iv authTag : String) : Except String (List Byte) :=
  decryptHybridWithKey ks tagOf (deriveKey hmac) encryptedData iv authTag

end Hybrid

/-! ## Record validation (`processEncryptedData`, lines 92-102) -/

/-- JavaScript `String.prototype.trim` whitespace (the ASCII part of the
Unicode set; the source data is ASCII). -/
def jsWhitespace (c : Char) : Bool :=
  c = ' ' || c = '\t' || c = '\n' || c = '\x0d' || c = '\x0b' || c = '\x0c'

/-- Strip leading and trailing whitespace from a character list. -/
def trimChars (l : List Char) : List Char :=
  ((l.dropWhile jsWhitespace).reverse.dropWhile jsWhitespace).reverse

/-- JavaScript `String.prototype.trim`. -/
def jsTrim (s : String) : String :=
  String.mk (trimChars s.toList)

/-- JavaScript `String.prototype.toLowerCase` on the ASCII range. -/
def jsLowerChar (c : Char) : Char :=
  if 'A' ≤ c ∧ c ≤ 'Z' then Char.ofNat (c.toNat + 32) else c

/-- JavaScript `String.prototype.toLowerCase` (ASCII; the source data is
ASCII). -/
def jsToLower (s : String) : String :=
  String.mk (s.toList.map jsLowerChar)

/-- A parsed JSON array element as seen by the validation loop: each of the
three accessed properties is either absent (or a non-string JS value treated
only through truthiness and `String(...)`; we restrict to the string case the
claims are about) or a string. -/
structure RawUser where
  nome : Option String
  email : Option String
  phone : Option String
deriving DecidableEq

/-- A validated, normalized user record (`User` of `src/types`). -/
structure User where
  nome : String
  email : String
  phone : String
deriving DecidableEq

/-- JavaScript truthiness of an optional string property: present and
non-empty. -/
def truthyStr : Option String → Bool
  | none => false
  | some s => s != ""

/-- The normalization applied to a surviving record: trim all three fields,
additionally lower-case the email. -/
def normalizeUser (u : RawUser) : User :=
  { nome := jsTrim (u.nome.getD "")
    email := jsToLower (jsTrim (u.email.getD ""))
    phone := jsTrim (u.phone.getD "") }

/-- The `parsedData.map((user, index) => ...)` loop: visit elements in order
starting at 0-based index `idx`; at the first element with a falsy `nome`,
`email` or `phone`, throw `Usuário ${index + 1} está incompleto`, discarding
every result; otherwise return the normalized records in input order. -/
def validateUsersFrom (idx : Nat) : List RawUser → Except String (List User)
  | [] => Except.ok []
  | u :: rest =>
    if truthyStr u.nome && truthyStr u.email && truthyStr u.phone then
      match validateUsersFrom (idx + 1) rest with
      | Except.ok us => Except.ok (normalizeUser u :: us)
      | Except.error e => Except.error e
    else
      Except.error ("Usuário " ++ toString (idx + 1) ++ " está incompleto")

/-! ## Inbound payload model and `processEncryptedData` / `validateEncryptedData` -/

/-- The inbound payload object, as accessed by the service: `mockData` holds
the truthiness of that property, the other properties are `none` when absent
or not a string (`users`: `none` when absent or falsy; a present empty array
is truthy in JavaScript, hence `some []`). -/
structure EncPayload where
  mockData : Bool
  users : Option (List User)
  encryptedData : Option String
  iv : Option String
  authTag : Option String
deriving DecidableEq

/-- Outcome of `JSON.parse` on the decrypted text, as far as the service
inspects it: not valid JSON, valid JSON but not an array, or an array of
elements (each accessed only through its `nome`/`email`/`phone` properties). -/
inductive ParsedJson where
  | notJson
  | notArray
  | arr (records : List RawUser)

/-- `EncryptionService.validateEncryptedData`: accept any payload with truthy
`mockData` and `users`; otherwise require `encryptedData`, `iv` and `authTag`
to be present, strings, and non-empty. -/
def validateEncryptedData (d : EncPayload) : Bool :=
  if d.mockData && d.users.isSome then true
  else truthyStr d.encryptedData && truthyStr d.iv && truthyStr d.authTag

section Pipeline

variable (ks : List Byte → List Byte → Nat → Byte)
variable (tagOf : List Byte → List Byte → List Byte → List Byte)
variable (hmac : String → List Byte → List Byte)

-- `JSON.parse` composed with UTF-8 decoding of the plaintext bytes:
-- external library code, hence a parameter of the model.
variable (parseJson : List Byte → ParsedJson)

/-- `EncryptionService.processEncryptedData`, instrumented: the second
component records whether the cipher (`decryptHybrid`) was invoked.  The mock
branch returns `users` as given, before the completeness check and before any
cryptographic work; then the three envelope fields are required truthy; then
the payload is decrypted, parsed and validated. -/
def processEncryptedDataT (d : EncPayload) : Except String (List User) × Bool :=
  if d.mockData && d.users.isSome then (Except.ok (d.users.getD []), false)
  else if !(truthyStr d.encryptedData && truthyStr d.iv && truthyStr d.authTag) then
    (Except.error "Dados criptografados incompletos", false)
  else
    match decryptHybrid ks tagOf hmac (d.encryptedData.getD "") (d.iv.getD "")
        (d.authTag.getD "") with
    | Except.error e => (Except.error e, true)
    | Except.ok bytes =>
      match parseJson bytes with
      | ParsedJson.notJson =>
        (Except.error "Dados descriptografados não são um JSON válido", true)
      | ParsedJson.notArray =>
        (Except.error "Dados descriptografados devem ser um array", true)
      | ParsedJson.arr l => (validateUsersFrom 0 l, true)

/-- `EncryptionService.processEncryptedData`: the observable result. -/
def processEncryptedData (d : EncPayload) : Except String (List User) :=
  (processEncryptedDataT ks tagOf hmac parseJson d).1

/-! ## The orchestrated flow (`DataController.executeDataFlow`) -/

/-- The stages of the orchestrated flow; `cipher` marks the actual invocation
of `decryptHybrid` inside the processing stage (the mock branch enters the
processing stage without it). -/
inductive Stage where
  | fetch
  | envelope
  | process
  | cipher
  | forward
deriving DecidableEq

/-- `DataController.executeDataFlow`: fetch (modelled by its result, the call
being external I/O), validate the envelope, process (decrypt + parse +
validate records), forward to the sink (modelled by its success flag).  Any
stage's throw lands in the surrounding `catch`, so no later stage runs.
The second component is the list of stages that executed. -/
def executeDataFlow (fetchRes : Except String EncPayload)
    (forwardOk : List User → Bool) : Except String (List User) × List Stage :=
  match fetchRes with
  | Except.error e => (Except.error e, [Stage.fetch])
  | Except.ok d =>
    if validateEncryptedData d then
      match processEncryptedDataT ks tagOf hmac parseJson d with
      | (res, used) =>
        let tr := [Stage.fetch, Stage.envelope, Stage.process]
          ++ (if used then [Stage.cipher] else [])
        match res with
        | Except.error e => (Except.error e, tr)
        | Except.ok users =>
          if forwardOk users then (Except.ok users, tr ++ [Stage.forward])
          else (Except.error "Erro ao processar dados no N8N", tr ++ [Stage.forward])
    else (Except.error "Dados criptografados inválidos", [Stage.fetch, Stage.envelope])

end Pipeline

/-! ## Chunking lemmas -/

theorem chunksOf_nil (n : Nat) : chunksOf n [] = [] := by
  rw [chunksOf]
  simp

theorem chunksOf_cons (n : Nat) (hn : n ≠ 0) (l : List Byte) (hl : l ≠ []) :
    chunksOf n l = l.take n :: chunksOf n (l.drop n) := by
  rw [chunksOf]
  simp [hn, hl]

theorem gcmUpdate_append (ksb : Nat → Byte) :
    ∀ (a b : List Byte) (off : Nat),
      gcmUpdate ksb off (a ++ b) =
        gcmUpdate ksb off a ++ gcmUpdate ksb (off + a.length) b
  | [], b, off => by simp [gcmUpdate]
  | x :: xs, b, off => by
    have harith : off + 1 + xs.length = off + (xs.length + 1) := by omega
    simp [gcmUpdate, gcmUpdate_append ksb xs b (off + 1), harith]

theorem streamUpdates_chunksOf_le (ksb : Nat → Byte) (n : Nat) (hn : n ≠ 0) :
    ∀ (m : Nat) (cs : List Byte), cs.length ≤ m → ∀ off,
      streamUpdates ksb off (chunksOf n cs) = gcmUpdate ksb off cs := by
  intro m
  induction m with
  | zero =>
    intro cs hcs off
    have hnil : cs = [] := List.length_eq_zero.mp (Nat.le_zero.mp hcs)
    subst hnil
    simp [chunksOf_nil, streamUpdates, gcmUpdate]
  | succ m ih =>
    intro cs hcs off
    rcases eq_or_ne cs [] with rfl | hne
    · simp [chunksOf_nil, streamUpdates, gcmUpdate]
    · rw [chunksOf_cons n hn cs hne, streamUpdates]
      have hdrop : (cs.drop n).length ≤ m := by
        have h1 : 0 < n := Nat.pos_of_ne_zero hn
        have h2 : 0 < cs.length := List.length_pos.mpr hne
        simp only [List.length_drop]
        omega
      rw [ih (cs.drop n) hdrop]
      have hsplit := gcmUpdate_append ksb (cs.take n) (cs.drop n) off
      rw [List.take_append_drop] at hsplit
      exact hsplit.symm

/-- Decrypting the 64 KiB chunks in input order gives the same bytes as one
whole-buffer update. -/
theorem streamUpdates_chunksOf (ksb : Nat → Byte) (cs : List Byte) (off : Nat) :
    streamUpdates ksb off (chunksOf chunkSize cs) = gcmUpdate ksb off cs :=
  streamUpdates_chunksOf_le ksb chunkSize (by norm_num [chunkSize]) cs.length cs le_rfl off

theorem chunksOf_flatten_le (n : Nat) (hn : n ≠ 0) :
    ∀ (m : Nat) (l : List Byte), l.length ≤ m → (chunksOf n l).flatten = l := by
  intro m
  induction m with
  | zero =>
    intro l hl
    have hnil : l = [] := List.length_eq_zero.mp (Nat.le_zero.mp hl)
    subst hnil
    simp [chunksOf_nil]
  | succ m ih =>
    intro l hl
    rcases eq_or_ne l [] with rfl | hne
    · simp [chunksOf_nil]
    · rw [chunksOf_cons n hn l hne]
      have hdrop : (l.drop n).length ≤ m := by
        have h1 : 0 < n := Nat.pos_of_ne_zero hn
        have h2 : 0 < l.length := List.length_pos.mpr hne
        simp only [List.length_drop]
        omega
      simp [ih (l.drop n) hdrop]

/-- The chunks fed to the stream reassemble, in order, to the input. -/
theorem chunksOf_flatten (l : List Byte) : (chunksOf chunkSize l).flatten = l :=
  chunksOf_flatten_le chunkSize (by norm_num [chunkSize]) l.length l le_rfl

/-! ## Claims -/

/-- C1: for every (ciphertext, key, nonce, authTag), forcing the buffered
strategy and forcing the streamed strategy of decryption yield identical
output bytes or identical failure; the equality is universal in the
ciphertext, so it holds below, above and exactly at the 1 MiB threshold. -/
theorem decrypt_buffered_streamed_equiv
    (ks : List Byte → List Byte → Nat → Byte)
    (tagOf : List Byte → List Byte → List Byte → List Byte)
    (key iv tag cs : List Byte) :
    decryptWithBuffer ks tagOf key iv tag cs = decryptWithStreams ks tagOf key iv tag cs := by
  unfold decryptWithBuffer decryptWithStreams
  by_cases h : tagOf key iv cs = tag
  · simp [h, streamUpdates_chunksOf]
  · simp [h]

/-- C2: for every envelope whose authentication tag does not verify against
the ciphertext, nonce and derived key, decryption fails with an error and
returns no plaintext to its caller (the result type carries either an error
or the full plaintext, and the failing branches of both strategies, as well
as the decipher-construction failures, produce an error). -/
theorem tag_mismatch_no_plaintext
    (ks : List Byte → List Byte → Nat → Byte)
    (tagOf : List Byte → List Byte → List Byte → List Byte)
    (hmac : String → List Byte → List Byte)
    (enc iv tag : String)
    (h : tagOf (deriveKey hmac) (hexDecodeStr iv) (hexDecodeStr enc) ≠ hexDecodeStr tag) :
    ∃ e, decryptHybrid ks tagOf hmac enc iv tag = Except.error e := by
  simp only [decryptHybrid, decryptHybridWithKey]
  by_cases h1 : hexDecodeStr iv = []
  · exact ⟨genericDecryptFailMsg, by simp [h1]⟩
  · by_cases h2 : (hexDecodeStr tag).length ∈ validTagLengths
    · by_cases h3 : (hexDecodeStr enc).length < threshold
      · exact ⟨genericDecryptFailMsg, by simp [h1, h2, h3, decryptWithBuffer, h]⟩
      · exact ⟨authFailMsg, by simp [h1, h2, h3, decryptWithStreams, h]⟩
    · exact ⟨genericDecryptFailMsg, by simp [h1, h2]⟩

/-- C2 witness: a concrete envelope with a mismatching tag is rejected. -/
theorem tag_mismatch_no_plaintext_witness :
    ∃ e, decryptHybrid (fun _ _ _ => 0) (fun _ _ _ => [0]) (fun _ _ => [])
        "00" "00" "" = Except.error e :=
  tag_mismatch_no_plaintext (fun _ _ _ => 0) (fun _ _ _ => [0]) (fun _ _ => [])
    "00" "00" "" (by decide)

/-- C3: for every hex-encoded ciphertext given to `decryptHybrid` (provided
the decipher can be constructed: non-empty IV, admissible tag length),
a decoded length strictly below 1 MiB selects the buffered strategy (whose
synchronous failure the `catch` replaces by the generic message), and a
decoded length at or above 1 MiB — including exactly 1 MiB — selects the
streamed strategy over the 64 KiB chunks, which reassemble the ciphertext in
input order; the threshold is 1048576 bytes and the chunk size 65536 bytes. -/
theorem hybrid_strategy_selection
    (ks : List Byte → List Byte → Nat → Byte)
    (tagOf : List Byte → List Byte → List Byte → List Byte)
    (hmac : String → List Byte → List Byte)
    (enc iv tag : String)
    (hiv : hexDecodeStr iv ≠ [])
    (htag : (hexDecodeStr tag).length ∈ validTagLengths) :
    ((hexDecodeStr enc).length < threshold →
      decryptHybrid ks tagOf hmac enc iv tag =
        match decryptWithBuffer ks tagOf (deriveKey hmac) (hexDecodeStr iv)
            (hexDecodeStr tag) (hexDecodeStr enc) with
        | Except.ok r => Except.ok r
        | Except.error _ => Except.error genericDecryptFailMsg) ∧
    (threshold ≤ (hexDecodeStr enc).length →
      decryptHybrid ks tagOf hmac enc iv tag =
        decryptWithStreams ks tagOf (deriveKey hmac) (hexDecodeStr iv)
          (hexDecodeStr tag) (hexDecodeStr enc)) ∧
    (chunksOf chunkSize (hexDecodeStr enc)).flatten = hexDecodeStr enc ∧
    threshold = 1048576 ∧ chunkSize = 65536 := by
  refine ⟨?_, ?_, chunksOf_flatten (hexDecodeStr enc),
    by norm_num [threshold], by norm_num [chunkSize]⟩
  · intro hlt
    simp [decryptHybrid, decryptHybridWithKey, hiv, htag, hlt]
  · intro hge
    simp [decryptHybrid, decryptHybridWithKey, hiv, htag, Nat.not_lt.mpr hge]

/-- C3 witness: a concrete well-formed envelope instantiating the selection
theorem. -/
theorem hybrid_strategy_selection_witness :
    ((hexDecodeStr "00").length < threshold →
      decryptHybrid (fun _ _ _ => 0) (fun _ _ _ => []) (fun _ _ => []) "00" "0a" "00000000" =
        match decryptWithBuffer (fun _ _ _ => 0) (fun _ _ _ => [])
            (deriveKey (fun _ _ => [])) (hexDecodeStr "0a")
            (hexDecodeStr "00000000") (hexDecodeStr "00") with
        | Except.ok r => Except.ok r
        | Except.error _ => Except.error genericDecryptFailMsg) ∧
    (threshold ≤ (hexDecodeStr "00").length →
      decryptHybrid (fun _ _ _ => 0) (fun _ _ _ => []) (fun _ _ => []) "00" "0a" "00000000" =
        decryptWithStreams (fun _ _ _ => 0) (fun _ _ _ => [])
          (deriveKey (fun _ _ => [])) (hexDecodeStr "0a")
          (hexDecodeStr "00000000") (hexDecodeStr "00")) ∧
    (chunksOf chunkSize (hexDecodeStr "00")).flatten = hexDecodeStr "00" ∧
    threshold = 1048576 ∧ chunkSize = 65536 :=
  hybrid_strategy_selection (fun _ _ _ => 0) (fun _ _ _ => []) (fun _ _ => [])
    "00" "0a" "00000000" (by decide) (by decide)

/-- A record passes the per-element check iff all three accessed properties
are truthy. -/
def goodUser (u : RawUser) : Bool :=
  truthyStr u.nome && truthyStr u.email && truthyStr u.phone

theorem validateUsersFrom_first_bad (u : RawUser) (rest : List RawUser)
    (hbad : goodUser u = false) :
    ∀ (k : Nat) (pre : List RawUser), (∀ v ∈ pre, goodUser v = true) →
      validateUsersFrom k (pre ++ u :: rest) =
        Except.error ("Usuário " ++ toString (k + pre.length + 1) ++ " está incompleto") := by
  intro k pre
  induction pre generalizing k with
  | nil =>
    intro _
    simp only [goodUser] at hbad
    simp [validateUsersFrom, hbad]
  | cons v vs ih =>
    intro hgood
    have hv := hgood v (by simp)
    simp only [goodUser] at hv
    have harith : k + 1 + vs.length + 1 = k + (vs.length + 1) + 1 := by omega
    simp only [List.cons_append, validateUsersFrom, List.append_eq, hv, if_true]
    rw [ih (k + 1) (fun w hw => hgood w (by simp [hw]))]
    simp [harith]

/-- C4: if some element of the decrypted array lacks a present, non-empty
`nome`, `email` or `phone`, validation fails with the error naming the
1-based position of the first offending element (`pre.length + 1` where
`pre` are the preceding, all-valid elements), returns no records, and does
not mention any later bad element (`rest` is arbitrary and absent from the
result). -/
theorem first_invalid_record_reported (pre : List RawUser) (u : RawUser)
    (rest : List RawUser)
    (hgood : ∀ v ∈ pre, goodUser v = true)
    (hbad : goodUser u = false) :
    validateUsersFrom 0 (pre ++ u :: rest) =
      Except.error ("Usuário " ++ toString (pre.length + 1) ++ " está incompleto") := by
  have h := validateUsersFrom_first_bad u rest hbad 0 pre hgood
  simpa using h

/-- C4 witness: the spec's own example, a valid record followed by one with
an empty name, fails naming position 2 (and the trailing bad element of the
longer batch is not reported). -/
theorem first_invalid_record_reported_witness :
    validateUsersFrom 0
        ([RawUser.mk (some "A") (some "a@x.com") (some "1")] ++
          RawUser.mk (some "") (some "b@x.com") (some "2") ::
            [RawUser.mk none none none]) =
      Except.error ("Usuário " ++
        toString ([RawUser.mk (some "A") (some "a@x.com") (some "1")].length + 1) ++
        " está incompleto") :=
  first_invalid_record_reported
    [RawUser.mk (some "A") (some "a@x.com") (some "1")]
    (RawUser.mk (some "") (some "b@x.com") (some "2"))
    [RawUser.mk none none none] (by decide) (by decide)

theorem validateUsersFrom_all_good :
    ∀ (l : List RawUser) (k : Nat), (∀ u ∈ l, goodUser u = true) →
      validateUsersFrom k l = Except.ok (l.map normalizeUser) := by
  intro l
  induction l with
  | nil => intro k _; simp [validateUsersFrom]
  | cons u us ih =>
    intro k hgood
    have hu := hgood u (by simp)
    simp only [goodUser] at hu
    simp [validateUsersFrom, hu, ih (k + 1) (fun w hw => hgood w (by simp [hw]))]

/-- C8: if every element of the array has all three properties present and
non-empty, validation returns exactly one output per input element, in input
order, each the trim-normalized (email additionally lower-cased) image of
its input; the function is a pure Lean function, so two runs on the same
input are definitionally equal (purity and determinism). -/
theorem normalization_and_order (l : List RawUser)
    (h : ∀ u ∈ l, goodUser u = true) :
    validateUsersFrom 0 l = Except.ok (l.map normalizeUser) ∧
    (l.map normalizeUser).length = l.length :=
  ⟨validateUsersFrom_all_good l 0 h, by simp⟩

/-- C8 witness: the spec's normalization example, evaluated. -/
theorem normalization_and_order_witness :
    validateUsersFrom 0 [RawUser.mk (some " Ana ") (some " Ana@X.COM ") (some " 123 ")] =
      Except.ok ([RawUser.mk (some " Ana ") (some " Ana@X.COM ") (some " 123 ")].map
        normalizeUser) ∧
    [RawUser.mk (some " Ana ") (some " Ana@X.COM ") (some " 123 ")].map normalizeUser =
      [User.mk "Ana" "ana@x.com" "123"] :=
  ⟨(normalization_and_order
      [RawUser.mk (some " Ana ") (some " Ana@X.COM ") (some " 123 ")] (by decide)).1,
    by decide⟩

theorem validateUsersFrom_ok_mem :
    ∀ (l : List RawUser) (k : Nat) (out : List User),
      validateUsersFrom k l = Except.ok out →
      ∀ r ∈ out, ∃ u ∈ l, goodUser u = true ∧ r = normalizeUser u := by
  intro l
  induction l with
  | nil =>
    intro k out h r hr
    simp only [validateUsersFrom] at h
    cases h
    simp at hr
  | cons u us ih =>
    intro k out h r hr
    simp only [validateUsersFrom] at h
    by_cases hc : (truthyStr u.nome && truthyStr u.email && truthyStr u.phone) = true
    · rw [if_pos hc] at h
      cases hrec : validateUsersFrom (k + 1) us with
      | ok us2 =>
        rw [hrec] at h
        cases h
        rcases List.mem_cons.mp hr with rfl | hr2
        · exact ⟨u, by simp, by simpa [goodUser] using hc, rfl⟩
        · rcases ih (k + 1) us2 hrec r hr2 with ⟨v, hv, hgv, hrv⟩
          exact ⟨v, by simp [hv], hgv, hrv⟩
      | error e =>
        rw [hrec] at h
        cases h
    · rw [if_neg hc] at h
      cases h

theorem validateUsersFrom_bad_not_ok :
    ∀ (l : List RawUser) (k : Nat),
      (∃ u ∈ l, goodUser u = false) →
      ∀ out, validateUsersFrom k l ≠ Except.ok out := by
  intro l
  induction l with
  | nil =>
    intro k h out
    simp at h
  | cons u us ih =>
    intro k h out heq
    simp only [validateUsersFrom] at heq
    rcases h with ⟨v, hv, hbadv⟩
    by_cases hc : (truthyStr u.nome && truthyStr u.email && truthyStr u.phone) = true
    · rw [if_pos hc] at heq
      cases hrec : validateUsersFrom (k + 1) us with
      | error e =>
        rw [hrec] at heq
        cases heq
      | ok us2 =>
        rcases List.mem_cons.mp hv with rfl | hvin
        · simp only [goodUser, hc] at hbadv
          cases hbadv
        · exact ih (k + 1) ⟨v, hvin, hbadv⟩ us2 hrec
    · rw [if_neg hc] at heq
      cases heq

set_option maxRecDepth 8000 in
/-- C6 counterexample: the pipeline's record validation accepts a 129-char
name, an address with no `@`, and a 21-char phone — the claimed 1..128 name
bound, email-syntax check and 1..20 phone bound are not enforced there (the
Joi `userSchema` carrying those bounds guards a different request path). -/
theorem record_bounds_not_enforced :
    validateUsersFrom 0
        [RawUser.mk (some (String.mk (List.replicate 129 'A'))) (some "notanemail")
          (some (String.mk (List.replicate 21 '1')))] =
      Except.ok
        [User.mk (String.mk (List.replicate 129 'A')) "notanemail"
          (String.mk (List.replicate 21 '1'))] ∧
    128 < (String.mk (List.replicate 129 'A')).length ∧
    20 < (String.mk (List.replicate 21 '1')).length ∧
    ('@' ∈ "notanemail".toList) = False := by
  refine ⟨rfl, by decide, by decide, by decide⟩

/-- C6 amended: every record in a batch returned by record validation is the
trim-normalized (email lower-cased) image of an input element all three of
whose fields were present and non-empty — no length bounds or email-syntax
checks are applied — and a batch containing any element with a missing or
empty field yields no records at all. -/
theorem record_batch_invariant (l : List RawUser) :
    (∀ out, validateUsersFrom 0 l = Except.ok out →
      ∀ r ∈ out, ∃ u ∈ l, goodUser u = true ∧ r = normalizeUser u) ∧
    ((∃ u ∈ l, goodUser u = false) →
      ∀ out, validateUsersFrom 0 l ≠ Except.ok out) :=
  ⟨fun out h => validateUsersFrom_ok_mem l 0 out h,
    fun h out => validateUsersFrom_bad_not_ok l 0 h out⟩

/-- C6 amended witness: a batch with an empty-name record yields no records. -/
theorem record_batch_invariant_witness :
    validateUsersFrom 0
        [RawUser.mk (some "") (some "b@x.com") (some "2")] ≠
      Except.ok [] :=
  (record_batch_invariant [RawUser.mk (some "") (some "b@x.com") (some "2")]).2
    ⟨RawUser.mk (some "") (some "b@x.com") (some "2"), by simp, by decide⟩ []

/-- C5 counterexample: a payload on the mock path (truthy `mockData` and
`users`) with no `authTag` at all passes envelope validation, so "for an
input missing or with an empty authTag, envelope validation fails" is false
as stated. -/
theorem mock_missing_tag_passes_validation :
    (EncPayload.mk true (some []) none none none).authTag = none ∧
    validateEncryptedData (EncPayload.mk true (some []) none none none) = true :=
  ⟨rfl, rfl⟩

/-- C5 amended: whenever a stage of the orchestrated flow fails, no later
stage executes — a fetch failure stops before envelope validation, an
envelope-validation failure stops before the processing stage (so the cipher
is never invoked), a processing failure stops before the forward stage — and
in particular, for an input NOT on the mock path that is missing or has an
empty `authTag`, envelope validation fails and no decryption call is ever
made. -/
theorem flow_fail_fast
    (ks : List Byte → List Byte → Nat → Byte)
    (tagOf : List Byte → List Byte → List Byte → List Byte)
    (hmac : String → List Byte → List Byte)
    (parseJson : List Byte → ParsedJson) :
    (∀ e fwd, executeDataFlow ks tagOf hmac parseJson (Except.error e) fwd =
        (Except.error e, [Stage.fetch])) ∧
    (∀ d fwd, validateEncryptedData d = false →
        executeDataFlow ks tagOf hmac parseJson (Except.ok d) fwd =
          (Except.error "Dados criptografados inválidos", [Stage.fetch, Stage.envelope])) ∧
    (∀ d fwd e, processEncryptedData ks tagOf hmac parseJson d = Except.error e →
        Stage.forward ∉ (executeDataFlow ks tagOf hmac parseJson (Except.ok d) fwd).2) ∧
    (∀ d fwd, (d.mockData && d.users.isSome) = false →
        (d.authTag = none ∨ d.authTag = some "") →
        validateEncryptedData d = false ∧
        Stage.cipher ∉ (executeDataFlow ks tagOf hmac parseJson (Except.ok d) fwd).2) := by
  refine ⟨fun e fwd => rfl, ?_, ?_, ?_⟩
  · intro d fwd hval
    simp [executeDataFlow, hval]
  · intro d fwd e hproc
    by_cases hval : validateEncryptedData d
    · rcases hpe : processEncryptedDataT ks tagOf hmac parseJson d with ⟨res, used⟩
      have hres : res = Except.error e := by
        have : (processEncryptedDataT ks tagOf hmac parseJson d).1 = Except.error e := hproc
        rw [hpe] at this
        exact this
      subst hres
      simp only [executeDataFlow, hval, if_true, hpe]
      cases used <;> simp
    · simp [executeDataFlow, hval]
  · intro d fwd hmock htag
    have htagF : truthyStr d.authTag = false := by
      rcases htag with h | h <;> simp [h, truthyStr]
    have hval : validateEncryptedData d = false := by
      simp [validateEncryptedData, hmock, htagF]
    refine ⟨hval, ?_⟩
    simp [executeDataFlow, hval]

/-- C5 amended witness: a concrete non-mock payload with no `authTag` fails
envelope validation and never reaches the cipher. -/
theorem flow_fail_fast_witness :
    validateEncryptedData (EncPayload.mk false none (some "ab") (some "cd") none) = false ∧
    Stage.cipher ∉ (executeDataFlow (fun _ _ _ => 0) (fun _ _ _ => []) (fun _ _ => [])
        (fun _ => ParsedJson.notJson)
        (Except.ok (EncPayload.mk false none (some "ab") (some "cd") none))
        (fun _ => true)).2 :=
  (flow_fail_fast (fun _ _ _ => 0) (fun _ _ _ => []) (fun _ _ => [])
      (fun _ => ParsedJson.notJson)).2.2.2
    (EncPayload.mk false none (some "ab") (some "cd") none) (fun _ => true)
    (by decide) (Or.inl rfl)

/-- C10: a payload with truthy `mockData` and `users` short-circuits
`processEncryptedData` to the `users` value exactly as given — no presence
check, trimming, lower-casing or bound check is applied to its records (the
equality holds for every list, normalized or not) — and is accepted by
`validateEncryptedData` whatever the `encryptedData`, `iv` and `authTag`
fields hold. -/
theorem mock_bypass
    (ks : List Byte → List Byte → Nat → Byte)
    (tagOf : List Byte → List Byte → List Byte → List Byte)
    (hmac : String → List Byte → List Byte)
    (parseJson : List Byte → ParsedJson)
    (d : EncPayload) (l : List User)
    (hm : d.mockData = true) (hu : d.users = some l) :
    processEncryptedData ks tagOf hmac parseJson d = Except.ok l ∧
    validateEncryptedData d = true := by
  constructor
  · simp [processEncryptedData, processEncryptedDataT, hm, hu]
  · simp [validateEncryptedData, hm, hu]

/-- C10 witness: a mock payload with an absent `authTag`, an empty `iv` and
no `encryptedData` is accepted, and its records — untrimmed name, upper-case
untrimmed email, empty phone — are returned verbatim. -/
theorem mock_bypass_witness :
    processEncryptedData (fun _ _ _ => 0) (fun _ _ _ => []) (fun _ _ => [])
        (fun _ => ParsedJson.notJson)
        (EncPayload.mk true (some [User.mk " X " "A@B.COM " ""]) none (some "") none) =
      Except.ok [User.mk " X " "A@B.COM " ""] ∧
    validateEncryptedData
        (EncPayload.mk true (some [User.mk " X " "A@B.COM " ""]) none (some "") none) = true :=
  mock_bypass (fun _ _ _ => 0) (fun _ _ _ => []) (fun _ _ => [])
    (fun _ => ParsedJson.notJson)
    (EncPayload.mk true (some [User.mk " X " "A@B.COM " ""]) none (some "") none)
    [User.mk " X " "A@B.COM " ""] rfl rfl

theorem hexDecode_zeroPairs : ∀ n : Nat,
    hexDecode (List.replicate (2 * n) '0') = List.replicate n 0 := by
  intro n
  induction n with
  | zero => simp [hexDecode]
  | succ m ih =>
    have h2 : 2 * (m + 1) = (2 * m) + 1 + 1 := by ring
    rw [h2, List.replicate_succ]
    rw [List.replicate_succ]
    have hd : hexDigitVal '0' = some 0 := by decide
    simp [hexDecode, hd, ih, List.replicate_succ]

theorem decryptHybrid_stream_tag_mismatch
    (ks : List Byte → List Byte → Nat → Byte)
    (tagOf : List Byte → List Byte → List Byte → List Byte)
    (hmac : String → List Byte → List Byte)
    (enc iv tag : String)
    (hiv : hexDecodeStr iv ≠ [])
    (htag : (hexDecodeStr tag).length ∈ validTagLengths)
    (hlen : ¬ (hexDecodeStr enc).length < threshold)
    (hmis : tagOf (deriveKey hmac) (hexDecodeStr iv) (hexDecodeStr enc) ≠ hexDecodeStr tag) :
    decryptHybrid ks tagOf hmac enc iv tag = Except.error authFailMsg := by
  simp [decryptHybrid, decryptHybridWithKey, hiv, htag, hlen, decryptWithStreams, hmis]

/-- C7: the buffered branch runs synchronously inside `decryptHybrid`'s
`try`, so its `catch` replaces every failure there — tag mismatch included —
by the generic message; but the streamed branch's promise is returned from
inside the `try` without `await`, so its rejection never reaches the
`catch`: at a 1 MiB ciphertext with a mismatching tag, the caller observes
the cipher's own authentication-failure message, distinguishable from the
generic message a decoding failure (here: an undecodable empty IV) yields.
This contradicts the claim that a tag-verification failure is never
distinguishable from a generic decoding error. -/
theorem auth_failure_message_distinguishable :
    decryptHybrid (fun _ _ _ => 0) (fun _ _ _ => [0, 0, 0, 0]) (fun _ _ => [])
        (String.mk (List.replicate 2097152 '0')) "0a" "01010101" =
      Except.error authFailMsg ∧
    decryptHybrid (fun _ _ _ => 0) (fun _ _ _ => [0, 0, 0, 0]) (fun _ _ => [])
        "00" "" "01010101" =
      Except.error genericDecryptFailMsg ∧
    authFailMsg ≠ genericDecryptFailMsg := by
  have hdec : hexDecodeStr (String.mk (List.replicate 2097152 '0')) =
      List.replicate 1048576 0 := by
    show hexDecode (List.replicate 2097152 '0') = _
    have h2 : (2097152 : Nat) = 2 * 1048576 := by norm_num
    rw [h2]
    exact hexDecode_zeroPairs 1048576
  refine ⟨?_, rfl, by decide⟩
  apply decryptHybrid_stream_tag_mismatch
  · decide
  · decide
  · rw [hdec, List.length_replicate]
    norm_num [threshold]
  · decide

theorem pbkdf2Rounds_length (hmac : String → List Byte → List Byte)
    (hm : ∀ pw d, (hmac pw d).length = 32) (pw : String) :
    ∀ (n : Nat) (u acc : List Byte), acc.length = 32 →
      (pbkdf2Rounds hmac pw u acc n).length = 32 := by
  intro n
  induction n with
  | zero => intro u acc hacc; simpa [pbkdf2Rounds] using hacc
  | succ m ih =>
    intro u acc hacc
    simp only [pbkdf2Rounds]
    exact ih (hmac pw u) (xorBytes acc (hmac pw u))
      (by simp [xorBytes, List.length_zipWith, hacc, hm])

theorem pbkdf2Block_length (hmac : String → List Byte → List Byte)
    (hm : ∀ pw d, (hmac pw d).length = 32) (pw : String) (salt : List Byte)
    (iters i : Nat) :
    (pbkdf2Block hmac pw salt iters i).length = 32 := by
  simp only [pbkdf2Block]
  exact pbkdf2Rounds_length hmac hm pw (iters - 1) _ _ (hm pw _)

theorem flatten_length_of_all32 :
    ∀ (bs : List (List Byte)), (∀ b ∈ bs, b.length = 32) →
      bs.flatten.length = 32 * bs.length := by
  intro bs
  induction bs with
  | nil => intro _; simp
  | cons b rest ih =>
    intro h
    have hb := h b (by simp)
    simp [List.flatten, hb, ih (fun c hc => h c (by simp [hc]))]
    ring

/-- C9: the key used by `decryptHybrid` is recomputed by the pure function
`deriveKey` on every call (third conjunct), `deriveKey` is exactly PBKDF2
over the fixed demo passphrase and salt with 100000 iterations requesting 32
bytes (second conjunct), and — provided the HMAC-SHA-256 primitive returns
32-byte blocks, its defining property — the derived key is 32 bytes long
(first conjunct).  Determinism is definitional: `deriveKey` is a pure Lean
function of its inputs, with no state or cache in the model. -/
theorem key_derivation_contract (hmac : String → List Byte → List Byte)
    (hm : ∀ pw d, (hmac pw d).length = 32) :
    (deriveKey hmac).length = 32 ∧
    deriveKey hmac =
      pbkdf2 hmac "default-password-for-demo" (asciiBytes "default-salt-for-demo") 100000 32 ∧
    (∀ ks tagOf e i t, decryptHybrid ks tagOf hmac e i t =
        decryptHybridWithKey ks tagOf (deriveKey hmac) e i t) := by
  refine ⟨?_, rfl, fun ks tagOf e i t => rfl⟩
  simp only [deriveKey, pbkdf2, List.length_take]
  have hflat : (((List.range 32).map
      (fun j => pbkdf2Block hmac "default-password-for-demo"
        (asciiBytes "default-salt-for-demo") 100000 (j + 1))).flatten).length = 32 * 32 := by
    have h := flatten_length_of_all32
      ((List.range 32).map
        (fun j => pbkdf2Block hmac "default-password-for-demo"
          (asciiBytes "default-salt-for-demo") 100000 (j + 1)))
      (by
        intro b hb
        rcases List.mem_map.mp hb with ⟨j, _, rfl⟩
        exact pbkdf2Block_length hmac hm _ _ _ _)
    simpa using h
  rw [hflat]
  norm_num

/-- C9 witness: at a concrete 32-byte-block PRF the derived key has length
32. -/
theorem key_derivation_contract_witness :
    (deriveKey (fun _ _ => List.replicate 32 0)).length = 32 :=
  (key_derivation_contract (fun _ _ => List.replicate 32 0)
    (fun _ _ => by simp)).1

end FullStackBack
